import Mathlib

/-!
Verification model of the Redis checkpoint saver (`redis_saver.py`).

The file embeds, as executable Lean definitions:
  * the hybrid serializer (`JsonAndBinarySerializer`): the top-level
    bytes-as-hex special case and the error wrapping are translated from the
    source; the inherited structured JSON codec (`JsonPlusSerializer`, a
    library the repository only imports) is modelled from the spec;
  * the Redis store as an association list of keys to field maps, with the
    Python-level distinction between `str` and `bytes` dictionary keys made
    explicit (redis-py returns `bytes`-keyed dicts from `hgetall`);
  * the `RedisSaver` operations `put` / `aput`, `get_tuple` / `aget_tuple`,
    `list` / `alist`, and the scoped connection helpers.
-/

/-! ## Character-list utilities -/

/-- Lexicographic comparison of character lists by code point; this is the
order Python uses for `str` comparison (`<` on decoded keys). -/
def lexLt : List Char → List Char → Bool
  | [], [] => false
  | [], _ :: _ => true
  | _ :: _, [] => false
  | a :: as, b :: bs =>
    if a.toNat < b.toNat then true
    else if b.toNat < a.toNat then false
    else lexLt as bs

/-- Python string `<` on Lean strings. -/
def strLt (s t : String) : Bool := lexLt s.data t.data

/-- Python string `<=`, derived from `strLt` as in a linear order. -/
def strLe (s t : String) : Bool := !(strLt t s)

/-- All suffixes of a character list, longest first (ending with `[]`). -/
def suffixes : List Char → List (List Char)
  | [] => [[]]
  | c :: r => (c :: r) :: suffixes r

/-- Redis glob matching restricted to the `*` wildcard, which is the only
glob construct the saver ever puts in a pattern (`checkpoint:{tid}:*`). -/
def globMatch : List Char → List Char → Bool
  | [], k => k.isEmpty
  | p :: ps, k =>
    if p = '*' then (suffixes k).any (fun k2 => globMatch ps k2)
    else
      match k with
      | [] => false
      | c :: ks => p == c && globMatch ps ks

/-- The characters after the last `:` of a string (the whole string when no
`:` occurs); this is Python's `s.split(":")[-1]`. -/
def lastSegL (cs : List Char) : List Char :=
  (cs.reverse.takeWhile (fun c => !(c == ':'))).reverse

/-- `key.decode().split(":")[-1]` — the version suffix of a storage key. -/
def lastSeg (s : String) : String := String.mk (lastSegL s.data)

/-! ## The serialized value universe

`Checkpoint` / `CheckpointMetadata` payloads are Python dicts whose entries
can hold strings, numbers, booleans, `None`, nested dicts, raw byte strings,
and (in the failure case) objects the JSON encoder cannot handle. -/

/-- Modelled from the spec: the universe of structured values handled by the
repository's hybrid codec.  The inherited `JsonPlusSerializer` (imported
from the `langgraph` library, not part of this repository) is specified as
"a general-purpose recursive encoder that must also be able to tag embedded
binary fields for correct round-trip"; dicts are represented as chains of
`vobjCons` entries, embedded byte strings as `vbytes`, and a Python object
with no JSON encoding as `vpyobj` (encoding it fails). -/
inductive Value : Type where
  | vnull : Value
  | vbool : Bool → Value
  | vint : Int → Value
  | vstr : String → Value
  | vbytes : List (Fin 256) → Value
  | vobjNil : Value
  | vobjCons : String → Value → Value → Value
  | vpyobj : Nat → Value
deriving DecidableEq

/-- A value is JSON-encodable iff it contains no `vpyobj` leaf. -/
def serializable : Value → Bool
  | .vpyobj _ => false
  | .vobjCons _ v r => serializable v && serializable r
  | _ => true

/-- Is the value itself a raw byte string (Python `isinstance(obj, bytes)`)? -/
def topBytes : Value → Bool
  | .vbytes _ => true
  | _ => false

/-- Hex digit character for a nibble (lowercase, as Python's `bytes.hex`
produces). -/
def hexChar (d : Nat) : Char :=
  if d < 10 then Char.ofNat (d + 48)
  else if d < 16 then Char.ofNat (d - 10 + 97)
  else 'x'

/-- Numeric value of a lowercase hex digit character, `none` on anything
else. -/
def hexVal (c : Char) : Option Nat :=
  if 48 ≤ c.toNat ∧ c.toNat ≤ 57 then some (c.toNat - 48)
  else if 97 ≤ c.toNat ∧ c.toNat ≤ 102 then some (c.toNat - 97 + 10)
  else none

/-- Two hex characters per byte (`bytes.hex`). -/
def encByte (b : Fin 256) : List Char := [hexChar (b.val / 16), hexChar (b.val % 16)]

/-- Hex encoding of a byte string. -/
def hexOfBytes : List (Fin 256) → List Char
  | [] => []
  | b :: bs => encByte b ++ hexOfBytes bs

/-- `bytes.fromhex`: strict decoding of an even-length hex string. -/
def hexToBytes : List Char → Option (List (Fin 256))
  | [] => some []
  | c1 :: c2 :: r =>
    match hexVal c1, hexVal c2 with
    | some h, some l =>
      if hb : h * 16 + l < 256 then
        (hexToBytes r).map (fun bs => (⟨h * 16 + l, hb⟩ : Fin 256) :: bs)
      else none
    | _, _ => none
  | _ => none

/-- Unary length marker used by the modelled wire form (`n` ones then `;`). -/
def encNat (n : Nat) : List Char := List.replicate n '1' ++ [';']

/-- Length-prefixed string payload. -/
def encStrPayload (s : String) : List Char := encNat s.length ++ s.data

/-- Modelled from the spec: the recursive structured encoder of the inherited
`JsonPlusSerializer`.  Each constructor gets a distinct tag character;
embedded byte strings are tagged (`b`) and hex-encoded, which models the
`_default` hook of `JsonAndBinarySerializer` that encodes `bytes` via
`fromhex` constructor arguments.  `vpyobj` has no faithful encoding (the
real encoder raises); `encVal` is only ever applied to `serializable`
values. -/
def encVal : Value → List Char
  | .vnull => ['n']
  | .vbool true => ['t']
  | .vbool false => ['f']
  | .vint (Int.ofNat n) => '+' :: encNat n
  | .vint (Int.negSucc n) => '-' :: encNat n
  | .vstr s => 's' :: encStrPayload s
  | .vbytes bs => 'b' :: (encNat bs.length ++ hexOfBytes bs)
  | .vobjNil => ['o']
  | .vobjCons k v r => 'e' :: (encStrPayload k ++ encVal v ++ encVal r)
  | .vpyobj _ => ['x']

/-- Parse a unary length marker. -/
def parseNat : List Char → Option (Nat × List Char)
  | [] => none
  | ';' :: r => some (0, r)
  | '1' :: r => (parseNat r).map (fun p => (p.1 + 1, p.2))
  | _ => none

/-- Read exactly `n` characters. -/
def readN : Nat → List Char → Option (List Char × List Char)
  | 0, r => some ([], r)
  | _ + 1, [] => none
  | n + 1, c :: r => (readN n r).map (fun p => (c :: p.1, p.2))

/-- Parse a length-prefixed string payload. -/
def parseStrPayload (cs : List Char) : Option (String × List Char) :=
  match parseNat cs with
  | none => none
  | some (n, r) =>
    match readN n r with
    | none => none
    | some (l, r2) => some (String.mk l, r2)

/-- Read exactly `n` hex-encoded bytes. -/
def readBytes : Nat → List Char → Option (List (Fin 256) × List Char)
  | 0, r => some ([], r)
  | n + 1, c1 :: c2 :: r =>
    match hexVal c1, hexVal c2 with
    | some h, some l =>
      if hb : h * 16 + l < 256 then
        (readBytes n r).map (fun p => ((⟨h * 16 + l, hb⟩ : Fin 256) :: p.1, p.2))
      else none
    | _, _ => none
  | _ + 1, _ => none

/-- Parse a length-prefixed hex byte-string payload. -/
def parseBytesPayload (cs : List Char) : Option (List (Fin 256) × List Char) :=
  match parseNat cs with
  | none => none
  | some (n, r) =>
    match readBytes n r with
    | none => none
    | some (bs, r2) => some (bs, r2)

/-- Modelled from the spec: the recursive structured decoder matching
`encVal`, fuelled by input length for termination. -/
def parseVal : Nat → List Char → Option (Value × List Char)
  | 0, _ => none
  | fuel + 1, cs =>
    match cs with
    | 'n' :: r => some (.vnull, r)
    | 't' :: r => some (.vbool true, r)
    | 'f' :: r => some (.vbool false, r)
    | 'o' :: r => some (.vobjNil, r)
    | '+' :: r => (parseNat r).map (fun p => (.vint (Int.ofNat p.1), p.2))
    | '-' :: r => (parseNat r).map (fun p => (.vint (Int.negSucc p.1), p.2))
    | 's' :: r => (parseStrPayload r).map (fun p => (.vstr p.1, p.2))
    | 'b' :: r => (parseBytesPayload r).map (fun p => (.vbytes p.1, p.2))
    | 'e' :: r =>
      match parseStrPayload r with
      | none => none
      | some (k, r1) =>
        match parseVal fuel r1 with
        | none => none
        | some (v, r2) =>
          match parseVal fuel r2 with
          | none => none
          | some (w, r3) => some (.vobjCons k v w, r3)
    | _ => none

/-- Fuel needed by `parseVal`: one unit per object node. -/
def wVal : Value → Nat
  | .vobjCons _ v r => 1 + wVal v + wVal r
  | _ => 1

/-- `JsonAndBinarySerializer.dumps`: a top-level byte string becomes plain
hex text; anything else goes through the structured encoder, which raises
(`Except.error`) on non-serializable content. -/
def JsonAndBinarySerializer.dumps (v : Value) : Except String String :=
  match v with
  | .vbytes bs => .ok (String.mk (hexOfBytes bs))
  | v =>
    if serializable v then .ok (String.mk (encVal v))
    else .error "Serialization error"

/-- `JsonAndBinarySerializer.loads`: with the binary hint the text is decoded
as plain hex (`bytes.fromhex`); otherwise it is parsed by the structured
decoder, which must consume the whole input. -/
def JsonAndBinarySerializer.loads (s : String) (is_binary : Bool) : Except String Value :=
  match is_binary with
  | true =>
    match hexToBytes s.data with
    | some bs => .ok (.vbytes bs)
    | none => .error "Deserialization error"
  | false =>
    match parseVal (s.data.length + 1) s.data with
    | some (v, []) => .ok v
    | _ => .error "Deserialization error"

/-! ## Data model of the saver -/

deriving instance DecidableEq for Except

/-- `RunnableConfig`: its `configurable` dict carries `thread_id` (the
session id) and optionally `thread_ts` (the version marker). -/
structure Config where
  thread_id : String
  thread_ts : Option String
deriving DecidableEq

/-- `Checkpoint`: a dict with a `ts` entry (read by `put` as
`checkpoint["ts"]`) plus the rest of its entries. -/
structure Checkpoint where
  ts : String
  extra : List (String × Value)
deriving DecidableEq

/-- `CheckpointMetadata` is an opaque dict. -/
abbrev Metadata := List (String × Value)

/-- A Python dict as a chain of `Value` object entries. -/
def fieldsToValue : List (String × Value) → Value
  | [] => .vobjNil
  | (k, v) :: r => .vobjCons k v (fieldsToValue r)

/-- The checkpoint dict as passed to `serde.dumps` (`ts` entry first). -/
def Checkpoint.toValue (c : Checkpoint) : Value :=
  .vobjCons "ts" (.vstr c.ts) (fieldsToValue c.extra)

/-- `CheckpointTuple` as assembled by the read paths. -/
structure CheckpointTuple where
  config : Config
  checkpoint : Value
  metadata : Value
  parent_config : Option Config
deriving DecidableEq

/-! ## The Redis store and the Python `str` / `bytes` distinction -/

/-- A Python string value.  redis-py (without `decode_responses`) hands back
`bytes` objects, while parts of the source index the returned dicts with
`str` literals; in Python the two never compare equal, so the distinction is
kept explicit. -/
inductive PyStr where
  | text (s : String)
  | bin (s : String)
deriving DecidableEq

/-- `bytes.decode()`; stored payloads are ASCII, so content is unchanged. -/
def pyDecode : PyStr → String
  | .text s => s
  | .bin s => s

/-- A stored Redis hash: field name to value (byte strings server-side,
represented by their character content). -/
abbrev RHash := List (String × String)

/-- The Redis database: key to hash, in insertion order. -/
abbrev Store := List (String × RHash)

def storeLookup : Store → String → Option RHash
  | [], _ => none
  | (k, h) :: t, key => if k = key then some h else storeLookup t key

/-- `HSET key mapping`: sets the given fields and keeps any other existing
fields of the hash (new bindings shadow old ones on lookup). -/
def hsetStore : Store → String → RHash → Store
  | [], key, fields => [(key, fields)]
  | (k, h) :: t, key, fields =>
    if k = key then (k, fields ++ h) :: t
    else (k, h) :: hsetStore t key fields

/-- `HGETALL key` server-side: the stored hash, empty when absent. -/
def hgetall (st : Store) (key : String) : RHash :=
  (storeLookup st key).getD []

/-- `conn.hgetall(key)` at the Python level: a dict with `bytes` keys and
`bytes` values. -/
def hgetallPy (st : Store) (key : String) : List (PyStr × PyStr) :=
  (hgetall st key).map (fun p => (.bin p.1, .bin p.2))

/-- Python dict lookup (`d[k]`, `d.get(k)`). -/
def pyLookup : List (PyStr × PyStr) → PyStr → Option PyStr
  | [], _ => none
  | (a, b) :: t, k => if a = k then some b else pyLookup t k

/-- Python `k in d`. -/
def pyContains (d : List (PyStr × PyStr)) (k : PyStr) : Bool :=
  (pyLookup d k).isSome

/-- `conn.keys(pattern)`: all stored keys matching the glob pattern, in
store order (the keys are decoded before use, as the source always does). -/
def keysMatching (st : Store) (pattern : String) : List String :=
  (st.map Prod.fst).filter (fun k => globMatch pattern.data k.data)

/-- `checkpoint:{thread_id}:{ts}`. -/
def mkKey (thread_id ts : String) : String :=
  "checkpoint:" ++ thread_id ++ ":" ++ ts

/-- `checkpoint:{thread_id}:*`. -/
def sessPattern (thread_id : String) : String :=
  "checkpoint:" ++ thread_id ++ ":*"

/-- Python truthiness of an optional string: `None` and `""` are falsy. -/
def truthyOpt : Option String → Bool
  | some s => !(s == "")
  | none => false

/-- `parent_ts if parent_ts else ""` applied to
`config["configurable"].get("thread_ts")`. -/
def parentTs (config : Config) : String :=
  match config.thread_ts with
  | some p => if p == "" then "" else p
  | none => ""

/-- The `parent_config` a read yields for a record saved under `config`:
present iff a non-empty predecessor version was recorded. -/
def parentOf (config : Config) : Option Config :=
  if parentTs config == "" then none
  else some ⟨config.thread_id, some (parentTs config)⟩

/-- `max(keys, key=lambda k: k.decode().split(":")[-1])`: Python `max`
replaces the current best only on strictly greater, so the first maximum
wins. -/
def maxBySuffix (k : String) (ks : List String) : String :=
  ks.foldl (fun best cand => if strLt (lastSeg best) (lastSeg cand) then cand else best) k

/-- Insertion step of the stable descending sort by version suffix. -/
def insertDesc (x : String) : List String → List String
  | [] => [x]
  | y :: ys =>
    if strLt (lastSeg x) (lastSeg y) then y :: insertDesc x ys
    else x :: y :: ys

/-- `sorted(keys, key=lambda k: ..., reverse=True)`: stable, descending by
version suffix. -/
def sortDesc : List String → List String
  | [] => []
  | x :: xs => insertDesc x (sortDesc xs)

/-- `keys[:limit]`, applied only when `limit` is truthy (`if limit:`, so
`None` and `0` leave the list untouched). -/
def applyLimit (keys : List String) : Option Nat → List String
  | some n => if n == 0 then keys else keys.take n
  | none => keys

/-! ## The RedisSaver operations -/

namespace RedisSaver

/-- Decoding the record stored under `key` (`get_tuple` lines 204–224): the
`hgetall` emptiness check, the `bytes`-keyed field reads, `serde.loads`, and
the `parent_config` synthesis. -/
def fetchKey (st : Store) (config : Config) (key : String) :
    Except String (Option CheckpointTuple) :=
  let data := hgetallPy st key
  if data.isEmpty then .ok none
  else
    match pyLookup data (.bin "checkpoint") with
    | none => .error "KeyError"
    | some craw =>
      match JsonAndBinarySerializer.loads (pyDecode craw) false with
      | .error e => .error e
      | .ok cp =>
        match pyLookup data (.bin "metadata") with
        | none => .error "KeyError"
        | some mraw =>
          match JsonAndBinarySerializer.loads (pyDecode mraw) false with
          | .error e => .error e
          | .ok md =>
            let parent_ts := pyDecode ((pyLookup data (.bin "parent_ts")).getD (.bin ""))
            let parent_config : Option Config :=
              if parent_ts == "" then none
              else some ⟨config.thread_id, some parent_ts⟩
            .ok (some ⟨config, cp, md, parent_config⟩)

/-- `RedisSaver.put`: serializes checkpoint and metadata, writes one hash
under `checkpoint:{thread_id}:{ts}` together with the parent version taken
from the input config, and returns the config pointing at the new version.
A serialization error is re-raised and the store is left untouched. -/
def put (st : Store) (config : Config) (checkpoint : Checkpoint)
    (metadata : Metadata) : Except String Config × Store :=
  let thread_id := config.thread_id
  let parent_ts := parentTs config
  let key := mkKey thread_id checkpoint.ts
  match JsonAndBinarySerializer.dumps checkpoint.toValue with
  | .error e => (.error e, st)
  | .ok cpS =>
    match JsonAndBinarySerializer.dumps (fieldsToValue metadata) with
    | .error e => (.error e, st)
    | .ok mdS =>
      (.ok ⟨thread_id, some checkpoint.ts⟩,
        hsetStore st key
          [("checkpoint", cpS), ("metadata", mdS), ("parent_ts", parent_ts)])

/-- `RedisSaver.aput`: the suspending variant; apart from `await` at the
I/O points its data flow is the same line for line. -/
def aput (st : Store) (config : Config) (checkpoint : Checkpoint)
    (metadata : Metadata) : Except String Config × Store :=
  let thread_id := config.thread_id
  let parent_ts := parentTs config
  let key := mkKey thread_id checkpoint.ts
  match JsonAndBinarySerializer.dumps checkpoint.toValue with
  | .error e => (.error e, st)
  | .ok cpS =>
    match JsonAndBinarySerializer.dumps (fieldsToValue metadata) with
    | .error e => (.error e, st)
    | .ok mdS =>
      (.ok ⟨thread_id, some checkpoint.ts⟩,
        hsetStore st key
          [("checkpoint", cpS), ("metadata", mdS), ("parent_ts", parent_ts)])

/-- `RedisSaver.get_tuple`: with a truthy `thread_ts` the exact key is
fetched; otherwise all keys of the session pattern are enumerated and the
one with the lexically greatest version suffix is chosen (`max`); `none`
when no key matches. -/
def get_tuple (st : Store) (config : Config) :
    Except String (Option CheckpointTuple) :=
  if truthyOpt config.thread_ts then
    fetchKey st config (mkKey config.thread_id (config.thread_ts.getD ""))
  else
    match keysMatching st (sessPattern config.thread_id) with
    | [] => .ok none
    | k :: ks => fetchKey st config (maxBySuffix k ks)

/-- `RedisSaver.aget_tuple`: the suspending variant of `get_tuple`. -/
def aget_tuple (st : Store) (config : Config) :
    Except String (Option CheckpointTuple) :=
  if truthyOpt config.thread_ts then
    fetchKey st config (mkKey config.thread_id (config.thread_ts.getD ""))
  else
    match keysMatching st (sessPattern config.thread_id) with
    | [] => .ok none
    | k :: ks => fetchKey st config (maxBySuffix k ks)

/-- The yield loop of `list` / `alist`, returning the tuples yielded before
either normal exhaustion or a raised exception.  The record guard is the
source's `if data and "checkpoint" in data and "metadata" in data`, whose
membership tests use `str` keys on the `bytes`-keyed `hgetall` dict. -/
def listLoop (st : Store) (thread_id : String) :
    List String → List CheckpointTuple × Option String
  | [] => ([], none)
  | key :: rest =>
    let data := hgetallPy st key
    if !data.isEmpty && pyContains data (.text "checkpoint")
        && pyContains data (.text "metadata") then
      match pyLookup data (.text "checkpoint") with
      | none => ([], some "KeyError")
      | some craw =>
        match JsonAndBinarySerializer.loads (pyDecode craw) false with
        | .error e => ([], some e)
        | .ok cp =>
          match pyLookup data (.text "metadata") with
          | none => ([], some "KeyError")
          | some mraw =>
            match JsonAndBinarySerializer.loads (pyDecode mraw) false with
            | .error e => ([], some e)
            | .ok md =>
              let thread_ts := lastSeg key
              let parent_config : Option Config :=
                match pyLookup data (.text "parent_ts") with
                | some p =>
                  if pyDecode p == "" then none
                  else some ⟨thread_id,
                    some (pyDecode ((pyLookup data (.text "parent_ts")).getD (.bin "")))⟩
                | none => none
              let t : CheckpointTuple :=
                ⟨⟨thread_id, some thread_ts⟩, cp, md, parent_config⟩
              (t :: (listLoop st thread_id rest).1, (listLoop st thread_id rest).2)
    else listLoop st thread_id rest

/-- `RedisSaver.list`: session pattern (wildcard `*` when no config), the
`before` version filter, descending sort, truthy `limit` truncation, then
the yield loop. -/
def list (st : Store) (config : Option Config) (before : Option Config)
    (limit : Option Nat) : List CheckpointTuple × Option String :=
  let thread_id := match config with
    | some c => c.thread_id
    | none => "*"
  let keys0 := keysMatching st (sessPattern thread_id)
  match before with
  | some b =>
    match b.thread_ts with
    | none => ([], some "KeyError")
    | some v2 =>
      listLoop st thread_id
        (applyLimit (sortDesc (keys0.filter (fun k => strLt (lastSeg k) v2))) limit)
  | none => listLoop st thread_id (applyLimit (sortDesc keys0) limit)

/-- `RedisSaver.alist`: the suspending variant of `list`. -/
def alist (st : Store) (config : Option Config) (before : Option Config)
    (limit : Option Nat) : List CheckpointTuple × Option String :=
  let thread_id := match config with
    | some c => c.thread_id
    | none => "*"
  let keys0 := keysMatching st (sessPattern thread_id)
  match before with
  | some b =>
    match b.thread_ts with
    | none => ([], some "KeyError")
    | some v2 =>
      listLoop st thread_id
        (applyLimit (sortDesc (keys0.filter (fun k => strLt (lastSeg k) v2))) limit)
  | none => listLoop st thread_id (applyLimit (sortDesc keys0) limit)

end RedisSaver

/-! ## Scoped connection acquisition -/

/-- The argument of `_get_sync_connection`: an already-open client, a pool,
or anything else (`None` included). -/
inductive SyncConn where
  | client (id : Nat)
  | pool (id : Nat)
  | bad
deriving DecidableEq

/-- The argument of `_get_async_connection`. -/
inductive AsyncConn where
  | client (id : Nat)
  | pool (id : Nat)
  | bad
deriving DecidableEq

/-- The fresh `redis.Redis(connection_pool=pool)` client leased from a
pool. -/
def leasedConn (poolId : Nat) : Nat := poolId

/-- `_get_sync_connection` as a scoped-acquisition combinator: the body runs
with the selected connection; the second component lists the connections
closed by the `finally` block (the local `conn` is only set in the pool
branch, and `finally` runs on every exit path, normal or raising). -/
def _get_sync_connection {α : Type} (connection : SyncConn)
    (body : Nat → Except String α) : Except String α × List Nat :=
  match connection with
  | .client c => (body c, [])
  | .pool p => (body (leasedConn p), [leasedConn p])
  | .bad => (.error "Invalid sync connection object.", [])

/-- `_get_async_connection`: same structure, `await conn.aclose()` in the
`finally`. -/
def _get_async_connection {α : Type} (connection : AsyncConn)
    (body : Nat → Except String α) : Except String α × List Nat :=
  match connection with
  | .client c => (body c, [])
  | .pool p => (body (leasedConn p), [leasedConn p])
  | .bad => (.error "Invalid async connection object.", [])

/-! ## Shape predicates used to state the latest-resolution claim -/

/-- Characters that are inert both for the key scheme (`:`) and for the glob
patterns the saver builds. -/
def plainChar (c : Char) : Bool :=
  !(c == ':') && !(c == '*') && !(c == '?') && !(c == '[') && !(c == '\\')

def plainStr (s : String) : Bool := s.data.all plainChar

/-- Strip an expected literal head from a character list. -/
def dropLit : List Char → List Char → Option (List Char)
  | [], r => some r
  | _ :: _, [] => none
  | c :: p, d :: r => if c == d then dropLit p r else none

/-- Split at the first `:`. -/
def splitFirstColon : List Char → Option (List Char × List Char)
  | [] => none
  | c :: r =>
    if c = ':' then some ([], r)
    else (splitFirstColon r).map (fun p => (c :: p.1, p.2))

/-- Decidable well-formedness of a storage key: `checkpoint:{tid}:{ts}` with
plain `tid` and `ts`. -/
def keyShape (k : String) : Bool :=
  match dropLit ("checkpoint:").data k.data with
  | none => false
  | some rest =>
    match splitFirstColon rest with
    | none => false
    | some (a, b) => a.all plainChar && b.all plainChar

/-- Did an `Except` computation raise? -/
def exceptFailed {ε α : Type} : Except ε α → Bool
  | .error _ => true
  | .ok _ => false

/-! ## Round-trip of the serializer -/

theorem parseVal_eq_n (fuel : Nat) (r : List Char) :
    parseVal (fuel + 1) ('n' :: r) = some (.vnull, r) := rfl

theorem parseVal_eq_t (fuel : Nat) (r : List Char) :
    parseVal (fuel + 1) ('t' :: r) = some (.vbool true, r) := rfl

theorem parseVal_eq_f (fuel : Nat) (r : List Char) :
    parseVal (fuel + 1) ('f' :: r) = some (.vbool false, r) := rfl

theorem parseVal_eq_o (fuel : Nat) (r : List Char) :
    parseVal (fuel + 1) ('o' :: r) = some (.vobjNil, r) := rfl

theorem parseVal_eq_plus (fuel : Nat) (r : List Char) :
    parseVal (fuel + 1) ('+' :: r)
      = (parseNat r).map (fun p => (Value.vint (Int.ofNat p.1), p.2)) := rfl

theorem parseVal_eq_minus (fuel : Nat) (r : List Char) :
    parseVal (fuel + 1) ('-' :: r)
      = (parseNat r).map (fun p => (Value.vint (Int.negSucc p.1), p.2)) := rfl

theorem parseVal_eq_s (fuel : Nat) (r : List Char) :
    parseVal (fuel + 1) ('s' :: r)
      = (parseStrPayload r).map (fun p => (Value.vstr p.1, p.2)) := rfl

theorem parseVal_eq_b (fuel : Nat) (r : List Char) :
    parseVal (fuel + 1) ('b' :: r)
      = (parseBytesPayload r).map (fun p => (Value.vbytes p.1, p.2)) := rfl

theorem parseVal_eq_e (fuel : Nat) (r : List Char) :
    parseVal (fuel + 1) ('e' :: r)
      = (match parseStrPayload r with
        | none => none
        | some (k, r1) =>
          match parseVal fuel r1 with
          | none => none
          | some (v, r2) =>
            match parseVal fuel r2 with
            | none => none
            | some (w, r3) => some (.vobjCons k v w, r3)) := rfl

theorem parseNat_repl (n : Nat) (r : List Char) :
    parseNat (List.replicate n '1' ++ ';' :: r) = some (n, r) := by
  induction n with
  | zero => rfl
  | succ n ih => simp [List.replicate_succ, parseNat, ih]

theorem parseNat_encNat (n : Nat) (r : List Char) :
    parseNat (encNat n ++ r) = some (n, r) := by
  have h : encNat n ++ r = List.replicate n '1' ++ ';' :: r := by
    simp [encNat, List.append_assoc]
  rw [h, parseNat_repl]

theorem readN_append (l r : List Char) : readN l.length (l ++ r) = some (l, r) := by
  induction l with
  | nil => rfl
  | cons c cs ih => simp [readN, ih]

theorem parseStrPayload_enc (s : String) (r : List Char) :
    parseStrPayload (encStrPayload s ++ r) = some (s, r) := by
  cases s with
  | mk l =>
    have h : encStrPayload (String.mk l) ++ r = encNat l.length ++ (l ++ r) := by
      show (encNat l.length ++ l) ++ r = encNat l.length ++ (l ++ r)
      exact List.append_assoc _ _ _
    rw [h]
    simp only [parseStrPayload, parseNat_encNat, readN_append]

theorem hexVal_hexChar (d : Nat) (hd : d < 16) : hexVal (hexChar d) = some d := by
  have h16 : ∀ e : Fin 16, hexVal (hexChar e.val) = some e.val := by decide
  exact h16 ⟨d, hd⟩

theorem readBytes_enc (bs : List (Fin 256)) (r : List Char) :
    readBytes bs.length (hexOfBytes bs ++ r) = some (bs, r) := by
  induction bs with
  | nil => rfl
  | cons b tl ih =>
    have hb : b.val < 256 := b.isLt
    have hdiv : b.val / 16 < 16 := by omega
    have hmod : b.val % 16 < 16 := by omega
    have hform : hexOfBytes (b :: tl) ++ r
        = hexChar (b.val / 16) :: hexChar (b.val % 16) :: (hexOfBytes tl ++ r) := by
      simp [hexOfBytes, encByte]
    have hlt : b.val / 16 * 16 + b.val % 16 < 256 := by omega
    have hfin : (⟨b.val / 16 * 16 + b.val % 16, hlt⟩ : Fin 256) = b := by
      apply Fin.ext
      show b.val / 16 * 16 + b.val % 16 = b.val
      omega
    rw [List.length_cons, hform]
    simp only [readBytes, hexVal_hexChar _ hdiv, hexVal_hexChar _ hmod]
    rw [dif_pos hlt, ih]
    simp [hfin]

theorem parseBytesPayload_enc (bs : List (Fin 256)) (r : List Char) :
    parseBytesPayload ((encNat bs.length ++ hexOfBytes bs) ++ r) = some (bs, r) := by
  have h : (encNat bs.length ++ hexOfBytes bs) ++ r
      = encNat bs.length ++ (hexOfBytes bs ++ r) := by
    simp [List.append_assoc]
  rw [h]
  simp only [parseBytesPayload, parseNat_encNat, readBytes_enc]

theorem parseVal_encVal (v : Value) :
    ∀ (fuel : Nat) (r : List Char), serializable v = true → wVal v ≤ fuel →
      parseVal fuel (encVal v ++ r) = some (v, r) := by
  induction v with
  | vnull =>
    intro fuel r _ hw
    cases fuel with
    | zero => simp [wVal] at hw
    | succ fuel => rfl
  | vbool b =>
    intro fuel r _ hw
    cases fuel with
    | zero => simp [wVal] at hw
    | succ fuel => cases b <;> rfl
  | vint n =>
    intro fuel r _ hw
    cases fuel with
    | zero => simp [wVal] at hw
    | succ fuel =>
      cases n with
      | ofNat m =>
        have h : encVal (Value.vint (Int.ofNat m)) ++ r = '+' :: (encNat m ++ r) := rfl
        rw [h, parseVal_eq_plus, parseNat_encNat]
        rfl
      | negSucc m =>
        have h : encVal (Value.vint (Int.negSucc m)) ++ r = '-' :: (encNat m ++ r) := rfl
        rw [h, parseVal_eq_minus, parseNat_encNat]
        rfl
  | vstr s =>
    intro fuel r _ hw
    cases fuel with
    | zero => simp [wVal] at hw
    | succ fuel =>
      have h : encVal (Value.vstr s) ++ r = 's' :: (encStrPayload s ++ r) := rfl
      rw [h, parseVal_eq_s, parseStrPayload_enc]
      rfl
  | vbytes bs =>
    intro fuel r _ hw
    cases fuel with
    | zero => simp [wVal] at hw
    | succ fuel =>
      have h : encVal (Value.vbytes bs) ++ r
          = 'b' :: ((encNat bs.length ++ hexOfBytes bs) ++ r) := rfl
      rw [h, parseVal_eq_b, parseBytesPayload_enc]
      rfl
  | vobjNil =>
    intro fuel r _ hw
    cases fuel with
    | zero => simp [wVal] at hw
    | succ fuel => rfl
  | vobjCons k v w ihv ihw =>
    intro fuel r hs hw
    cases fuel with
    | zero => simp [wVal] at hw
    | succ fuel =>
      simp only [wVal] at hw
      simp only [serializable, Bool.and_eq_true] at hs
      have h : encVal (Value.vobjCons k v w) ++ r
          = 'e' :: (encStrPayload k ++ (encVal v ++ (encVal w ++ r))) := by
        show ('e' :: (encStrPayload k ++ encVal v ++ encVal w)) ++ r
          = 'e' :: (encStrPayload k ++ (encVal v ++ (encVal w ++ r)))
        simp [List.append_assoc]
      rw [h, parseVal_eq_e, parseStrPayload_enc]
      simp only [ihv fuel (encVal w ++ r) hs.1 (by omega), ihw fuel r hs.2 (by omega)]
  | vpyobj m =>
    intro fuel r hs _
    simp [serializable] at hs

theorem wVal_le_encVal_length (v : Value) : wVal v ≤ (encVal v).length := by
  induction v with
  | vobjCons k v w ihv ihw =>
    simp only [wVal, encVal, List.length_cons, List.length_append]
    omega
  | vnull => simp [wVal, encVal]
  | vbool b => cases b <;> simp [wVal, encVal]
  | vint n => cases n <;> simp [wVal, encVal]
  | vstr s => simp [wVal, encVal]
  | vbytes bs => simp [wVal, encVal]
  | vobjNil => simp [wVal, encVal]
  | vpyobj m => simp [wVal, encVal]

/-- On a non-raw-bytes value, `dumps` follows the structured-encoder branch. -/
theorem dumps_of_not_bytes (v : Value) (hb : topBytes v = false) :
    JsonAndBinarySerializer.dumps v
      = if serializable v then .ok (String.mk (encVal v))
        else .error "Serialization error" := by
  cases v <;> first | rfl | simp [topBytes] at hb

/-- The serializer round-trips every encodable non-raw-bytes value: whatever
`dumps` produces, `loads` (without the binary hint, as the saver calls it)
decodes back to the original value. -/
theorem loads_dumps (v : Value) (s : String)
    (hb : topBytes v = false)
    (h : JsonAndBinarySerializer.dumps v = .ok s) :
    JsonAndBinarySerializer.loads s false = .ok v := by
  rw [dumps_of_not_bytes v hb] at h
  by_cases hs : serializable v = true
  · rw [if_pos hs] at h
    have hsv : s = String.mk (encVal v) := by
      cases h
      rfl
    subst hsv
    have hp := parseVal_encVal v ((encVal v).length + 1) [] hs
      (Nat.le_trans (wVal_le_encVal_length v) (Nat.le_succ _))
    rw [List.append_nil] at hp
    have hd : (String.mk (encVal v)).data = encVal v := rfl
    simp only [JsonAndBinarySerializer.loads, hd, hp]
  · rw [if_neg hs] at h
    cases h

/-! ## Order properties of the Python string comparison -/

theorem lexLt_irrefl (a : List Char) : lexLt a a = false := by
  induction a with
  | nil => rfl
  | cons c cs ih => simp [lexLt, ih]

theorem lexLt_le_trans (a b c : List Char) (h1 : lexLt a b = false)
    (h2 : lexLt b c = false) : lexLt a c = false := by
  induction a generalizing b c with
  | nil =>
    cases b with
    | nil => exact h2
    | cons y ys => simp [lexLt] at h1
  | cons x xs ih =>
    cases c with
    | nil => rfl
    | cons z zs =>
      cases b with
      | nil => simp [lexLt] at h2
      | cons y ys =>
        simp only [lexLt] at h1 h2 ⊢
        split_ifs at h1 h2 ⊢ <;>
          first
            | rfl
            | exact Bool.noConfusion h1
            | exact Bool.noConfusion h2
            | exact ih ys zs h1 h2
            | (exfalso; omega)

theorem lexLt_trans (a b c : List Char) (h1 : lexLt a b = true)
    (h2 : lexLt b c = true) : lexLt a c = true := by
  induction a generalizing b c with
  | nil =>
    cases c with
    | nil =>
      cases b with
      | nil => exact h1
      | cons y ys => simp [lexLt] at h2
    | cons z zs => rfl
  | cons x xs ih =>
    cases b with
    | nil => simp [lexLt] at h1
    | cons y ys =>
      cases c with
      | nil => simp [lexLt] at h2
      | cons z zs =>
        simp only [lexLt] at h1 h2 ⊢
        split_ifs at h1 h2 ⊢ <;>
          first
            | rfl
            | exact Bool.noConfusion h1
            | exact Bool.noConfusion h2
            | exact ih ys zs h1 h2
            | (exfalso; omega)

theorem strLt_irrefl (s : String) : strLt s s = false := lexLt_irrefl _

theorem strLt_trans (a b c : String) (h1 : strLt a b = true)
    (h2 : strLt b c = true) : strLt a c = true := lexLt_trans _ _ _ h1 h2

theorem strLt_le_trans (a b c : String) (h1 : strLt a b = false)
    (h2 : strLt b c = false) : strLt a c = false := lexLt_le_trans _ _ _ h1 h2

theorem strLt_lt_of_lt_of_not_lt (a b d : String) (h1 : strLt a d = true)
    (h2 : strLt b d = false) : strLt a b = true := by
  cases hab : strLt a b with
  | true => rfl
  | false =>
    rw [strLt_le_trans a b d hab h2] at h1
    exact Bool.noConfusion h1

/-! ## Sorting, truncation and maximum selection -/

theorem mem_insertDesc (x y : String) (l : List String) :
    y ∈ insertDesc x l ↔ y = x ∨ y ∈ l := by
  induction l with
  | nil => simp [insertDesc]
  | cons z zs ih =>
    simp only [insertDesc]
    split_ifs with h
    · simp only [List.mem_cons, ih]
      tauto
    · simp only [List.mem_cons]

theorem mem_sortDesc (y : String) (l : List String) :
    y ∈ sortDesc l ↔ y ∈ l := by
  induction l with
  | nil => simp [sortDesc]
  | cons x xs ih => simp [sortDesc, mem_insertDesc, ih]

theorem mem_applyLimit (y : String) (keys : List String) (limit : Option Nat)
    (h : y ∈ applyLimit keys limit) : y ∈ keys := by
  cases limit with
  | none => exact h
  | some n =>
    simp only [applyLimit] at h
    by_cases h0 : (n == 0) = true
    · rw [if_pos h0] at h
      exact h
    · rw [if_neg h0] at h
      exact List.take_subset n keys h

theorem maxBySuffix_mem (k : String) (ks : List String) :
    maxBySuffix k ks ∈ k :: ks := by
  induction ks generalizing k with
  | nil => simp [maxBySuffix]
  | cons c cs ih =>
    have heq : maxBySuffix k (c :: cs)
        = maxBySuffix (if strLt (lastSeg k) (lastSeg c) then c else k) cs := rfl
    rw [heq]
    rcases List.mem_cons.mp (ih (if strLt (lastSeg k) (lastSeg c) then c else k)) with h | h
    · rw [h]
      split_ifs <;> simp [List.mem_cons]
    · simp [List.mem_cons, h]

theorem maxBySuffix_ge (k : String) (ks : List String) :
    ∀ x ∈ k :: ks, strLt (lastSeg (maxBySuffix k ks)) (lastSeg x) = false := by
  induction ks generalizing k with
  | nil =>
    intro x hx
    simp only [List.mem_cons, List.not_mem_nil, or_false] at hx
    subst hx
    simp [maxBySuffix, strLt_irrefl]
  | cons c cs ih =>
    intro x hx
    have heq : maxBySuffix k (c :: cs)
        = maxBySuffix (if strLt (lastSeg k) (lastSeg c) then c else k) cs := rfl
    rw [heq]
    rcases List.mem_cons.mp hx with hx | hx
    · subst hx
      by_cases hkc : strLt (lastSeg x) (lastSeg c) = true
      · rw [if_pos hkc]
        have hMc := ih c c (by simp)
        cases hMk : strLt (lastSeg (maxBySuffix c cs)) (lastSeg x) with
        | false => rfl
        | true =>
          rw [strLt_trans _ _ _ hMk hkc] at hMc
          exact Bool.noConfusion hMc
      · rw [if_neg hkc]
        exact ih x x (by simp)
    · rcases List.mem_cons.mp hx with hx | hx
      · subst hx
        by_cases hkc : strLt (lastSeg k) (lastSeg x) = true
        · rw [if_pos hkc]
          exact ih x x (by simp)
        · rw [if_neg hkc]
          have hMk := ih k k (by simp)
          cases hMx : strLt (lastSeg (maxBySuffix k cs)) (lastSeg x) with
          | false => rfl
          | true =>
            rw [strLt_lt_of_lt_of_not_lt _ _ _ hMx
              (Bool.not_eq_true _ ▸ hkc : strLt (lastSeg k) (lastSeg x) = false)] at hMk
            exact Bool.noConfusion hMk
      · split_ifs with hkc
        · exact ih c x (by simp [hx])
        · exact ih k x (by simp [hx])

/-! ## Version-suffix extraction on well-formed keys -/

theorem string_data_eq (a b : String) (h : a.data = b.data) : a = b := by
  cases a
  cases b
  cases h
  rfl

theorem stringMk_data (s : String) : String.mk s.data = s := by
  cases s
  rfl

theorem takeWhile_append_stop (l1 l2 : List Char) (d : Char) (p : Char → Bool)
    (h : ∀ c ∈ l1, p c = true) (hd : p d = false) :
    (l1 ++ d :: l2).takeWhile p = l1 := by
  induction l1 with
  | nil => simp [List.takeWhile, hd]
  | cons c cs ih =>
    simp only [List.cons_append, List.takeWhile]
    rw [h c (by simp)]
    simp [ih (fun c hc => h c (by simp [hc]))]

theorem lastSegL_concat (xs ts : List Char) (h : ∀ c ∈ ts, (c == ':') = false) :
    lastSegL (xs ++ ':' :: ts) = ts := by
  unfold lastSegL
  rw [List.reverse_append, List.reverse_cons, List.append_assoc,
    List.singleton_append]
  rw [takeWhile_append_stop]
  · exact List.reverse_reverse ts
  · intro c hc
    rw [h c (List.mem_reverse.mp hc)]
    rfl
  · rfl

theorem plainStr_no_colon (s : String) (h : plainStr s = true) :
    ∀ c ∈ s.data, (c == ':') = false := by
  intro c hc
  have hp : plainChar c = true := by
    rw [plainStr] at h
    exact List.all_eq_true.mp h c hc
  simp only [plainChar, Bool.and_eq_true, Bool.not_eq_eq_eq_not, Bool.not_true] at hp
  exact hp.1.1.1.1

theorem plainStr_no_star (s : String) (h : plainStr s = true) :
    ∀ c ∈ s.data, c ≠ '*' := by
  intro c hc
  have hp : plainChar c = true := by
    rw [plainStr] at h
    exact List.all_eq_true.mp h c hc
  simp only [plainChar, Bool.and_eq_true, Bool.not_eq_eq_eq_not, Bool.not_true] at hp
  intro hcs
  subst hcs
  exact Bool.noConfusion (hp.1.1.1.2.symm.trans (by rfl))

theorem mkKey_data (tid ts : String) :
    (mkKey tid ts).data = ("checkpoint:" ++ tid).data ++ ':' :: ts.data := by
  have hc : (":" : String).data = [':'] := rfl
  simp [mkKey, String.data_append, hc, List.append_assoc]

theorem lastSeg_mkKey (tid ts : String) (hts : plainStr ts = true) :
    lastSeg (mkKey tid ts) = ts := by
  rw [lastSeg, mkKey_data, lastSegL_concat _ _ (plainStr_no_colon ts hts),
    stringMk_data]

/-! ## Store update and read-back -/

theorem storeLookup_hsetStore_self (st : Store) (k : String) (f : RHash) :
    storeLookup (hsetStore st k f) k = some (f ++ hgetall st k) := by
  induction st with
  | nil => simp [hsetStore, storeLookup, hgetall]
  | cons e t ih =>
    obtain ⟨k0, h0⟩ := e
    simp only [hsetStore]
    by_cases hk : k0 = k
    · subst hk
      simp [storeLookup, hgetall]
    · rw [if_neg hk]
      simp [storeLookup, hk, ih, hgetall]

theorem hgetallPy_hset_self (st : Store) (k : String) (f : RHash) :
    hgetallPy (hsetStore st k f) k
      = (f.map fun p => (PyStr.bin p.1, PyStr.bin p.2)) ++ hgetallPy st k := by
  simp [hgetallPy, hgetall, storeLookup_hsetStore_self]

theorem topBytes_fieldsToValue (md : Metadata) :
    topBytes (fieldsToValue md) = false := by
  cases md with
  | nil => rfl
  | cons e t =>
    obtain ⟨a, b⟩ := e
    rfl

/-! ## Characterization of a successful save -/

theorem put_ok_elim (st : Store) (cfg : Config) (cp : Checkpoint) (md : Metadata)
    (cfg2 : Config) (st2 : Store)
    (h : RedisSaver.put st cfg cp md = (.ok cfg2, st2)) :
    cfg2 = ⟨cfg.thread_id, some cp.ts⟩
    ∧ ∃ cpS mdS,
        JsonAndBinarySerializer.dumps cp.toValue = .ok cpS
        ∧ JsonAndBinarySerializer.dumps (fieldsToValue md) = .ok mdS
        ∧ st2 = hsetStore st (mkKey cfg.thread_id cp.ts)
            [("checkpoint", cpS), ("metadata", mdS), ("parent_ts", parentTs cfg)] := by
  cases hc : JsonAndBinarySerializer.dumps cp.toValue with
  | error e =>
    simp only [RedisSaver.put, hc] at h
    injection h with h1 h2
    exact Except.noConfusion h1
  | ok cpS =>
    cases hm : JsonAndBinarySerializer.dumps (fieldsToValue md) with
    | error e =>
      simp only [RedisSaver.put, hc, hm] at h
      injection h with h1 h2
      exact Except.noConfusion h1
    | ok mdS =>
      simp only [RedisSaver.put, hc, hm] at h
      injection h with h1 h2
      injection h1 with h1
      exact ⟨h1.symm, cpS, mdS, rfl, rfl, h2.symm⟩

/-! ## Round trip through the store -/

theorem fetchKey_after_put (st : Store) (cfg2 : Config) (key : String)
    (cpS mdS pts : String) (cp : Checkpoint) (md : Metadata)
    (hc : JsonAndBinarySerializer.dumps cp.toValue = .ok cpS)
    (hm : JsonAndBinarySerializer.dumps (fieldsToValue md) = .ok mdS) :
    RedisSaver.fetchKey
      (hsetStore st key [("checkpoint", cpS), ("metadata", mdS), ("parent_ts", pts)])
      cfg2 key
      = .ok (some ⟨cfg2, cp.toValue, fieldsToValue md,
          if pts == "" then none else some ⟨cfg2.thread_id, some pts⟩⟩) := by
  have hload_c : JsonAndBinarySerializer.loads cpS false = .ok cp.toValue :=
    loads_dumps cp.toValue cpS rfl hc
  have hload_m : JsonAndBinarySerializer.loads mdS false = .ok (fieldsToValue md) :=
    loads_dumps (fieldsToValue md) mdS (topBytes_fieldsToValue md) hm
  have hne1 : ¬ (PyStr.bin "checkpoint" = PyStr.bin "metadata") := by decide
  have hne2 : ¬ (PyStr.bin "checkpoint" = PyStr.bin "parent_ts") := by decide
  have hne3 : ¬ (PyStr.bin "metadata" = PyStr.bin "parent_ts") := by decide
  rw [RedisSaver.fetchKey]
  rw [hgetallPy_hset_self]
  simp only [List.map_cons, List.map_nil, List.cons_append, List.isEmpty_cons,
    Bool.false_eq_true, if_false, pyLookup, pyDecode, if_true, if_neg hne1,
    if_neg hne2, if_neg hne3, Option.getD_some, hload_c, hload_m]

theorem put_then_get (st : Store) (cfg : Config) (cp : Checkpoint) (md : Metadata)
    (cfg2 : Config) (st2 : Store)
    (hts : cp.ts ≠ "")
    (h : RedisSaver.put st cfg cp md = (.ok cfg2, st2)) :
    RedisSaver.get_tuple st2 cfg2
      = .ok (some ⟨cfg2, cp.toValue, fieldsToValue md, parentOf cfg⟩) := by
  obtain ⟨hcfg2, cpS, mdS, hc, hm, hst2⟩ := put_ok_elim st cfg cp md cfg2 st2 h
  have h1 : cfg2.thread_ts = some cp.ts := by rw [hcfg2]
  have h2 : cfg2.thread_id = cfg.thread_id := by rw [hcfg2]
  have htr : truthyOpt (some cp.ts) = true := by
    simp [truthyOpt, hts]
  rw [RedisSaver.get_tuple, h1, h2, if_pos htr]
  simp only [Option.getD_some]
  rw [hst2, fetchKey_after_put st cfg2 (mkKey cfg.thread_id cp.ts) cpS mdS
    (parentTs cfg) cp md hc hm]
  rw [parentOf, h2]

/-! ## Glob matching against the key scheme -/

theorem mem_nil_suffixes (s : List Char) : [] ∈ suffixes s := by
  induction s with
  | nil => simp [suffixes]
  | cons c r ih => simp [suffixes, ih]

theorem globMatch_lit_star (lit : List Char) :
    ∀ (s : List Char), (∀ c ∈ lit, c ≠ '*') →
      (globMatch (lit ++ ['*']) s = true ↔ ∃ t, s = lit ++ t) := by
  induction lit with
  | nil =>
    intro s _
    constructor
    · intro _
      exact ⟨s, rfl⟩
    · intro _
      rw [List.nil_append]
      simp only [globMatch, if_pos rfl]
      exact List.any_eq_true.mpr ⟨[], mem_nil_suffixes s, rfl⟩
  | cons c cs ih =>
    intro s hstar
    have hc : c ≠ '*' := hstar c (by simp)
    have hstar2 : ∀ x ∈ cs, x ≠ '*' := fun x hx => hstar x (by simp [hx])
    cases s with
    | nil =>
      rw [List.cons_append]
      constructor
      · intro h
        simp only [globMatch, if_neg hc] at h
        exact Bool.noConfusion h
      · rintro ⟨t, ht⟩
        exact absurd ht (by simp)
    | cons d s2 =>
      rw [List.cons_append]
      simp only [globMatch, if_neg hc]
      constructor
      · intro h
        rw [Bool.and_eq_true] at h
        obtain ⟨hcd, hrest⟩ := h
        obtain ⟨t, ht⟩ := (ih s2 hstar2).mp hrest
        refine ⟨t, ?_⟩
        rw [List.cons_append, ht, beq_iff_eq.mp hcd]
      · rintro ⟨t, ht⟩
        rw [List.cons_append] at ht
        injection ht with h1 h2
        rw [Bool.and_eq_true]
        exact ⟨beq_iff_eq.mpr h1.symm, (ih s2 hstar2).mpr ⟨t, h2⟩⟩

theorem colon_split (a : List Char) :
    ∀ (b x y : List Char), (∀ c ∈ a, (c == ':') = false) →
      (∀ c ∈ b, (c == ':') = false) →
      a ++ ':' :: x = b ++ ':' :: y → a = b ∧ x = y := by
  induction a with
  | nil =>
    intro b x y _ hb h
    cases b with
    | nil =>
      rw [List.nil_append, List.nil_append] at h
      injection h with _ h2
      exact ⟨rfl, h2⟩
    | cons d b2 =>
      rw [List.nil_append, List.cons_append] at h
      injection h with h1 h2
      have hd := hb d (by simp)
      rw [← h1] at hd
      exact absurd hd (by simp)
  | cons c a2 ih =>
    intro b x y ha hb h
    cases b with
    | nil =>
      rw [List.cons_append, List.nil_append] at h
      injection h with h1 h2
      have hc := ha c (by simp)
      rw [h1] at hc
      exact absurd hc (by simp)
    | cons d b2 =>
      rw [List.cons_append, List.cons_append] at h
      injection h with h1 h2
      obtain ⟨hab, hxy⟩ :=
        ih b2 x y (fun u hu => ha u (by simp [hu])) (fun u hu => hb u (by simp [hu])) h2
      exact ⟨by rw [h1, hab], hxy⟩

theorem dropLit_eq (p : List Char) :
    ∀ (d r : List Char), dropLit p d = some r → d = p ++ r := by
  induction p with
  | nil =>
    intro d r h
    have h2 : d = r := by injection h
    rw [List.nil_append]
    exact h2
  | cons c p2 ih =>
    intro d r h
    cases d with
    | nil => exact Option.noConfusion h
    | cons e d2 =>
      simp only [dropLit] at h
      by_cases hce : (c == e) = true
      · rw [if_pos hce] at h
        rw [List.cons_append, ← ih d2 r h, beq_iff_eq.mp hce]
      · rw [if_neg hce] at h
        exact Option.noConfusion h

theorem splitFirstColon_eq (cs : List Char) :
    ∀ (a b : List Char), splitFirstColon cs = some (a, b) →
      cs = a ++ ':' :: b ∧ (∀ c ∈ a, (c == ':') = false) := by
  induction cs with
  | nil =>
    intro a b h
    exact Option.noConfusion h
  | cons c r ih =>
    intro a b h
    simp only [splitFirstColon] at h
    by_cases hc : c = ':'
    · rw [if_pos hc] at h
      injection h with h
      injection h with h1 h2
      subst hc
      rw [← h1, ← h2, List.nil_append]
      exact ⟨rfl, by simp⟩
    · rw [if_neg hc] at h
      cases hs : splitFirstColon r with
      | none => rw [hs] at h; exact Option.noConfusion h
      | some p =>
        obtain ⟨a2, b2⟩ := p
        rw [hs] at h
        simp only [Option.map_some'] at h
        injection h with h
        injection h with h1 h2
        obtain ⟨he, hcs⟩ := ih a2 b2 hs
        constructor
        · rw [← h1, ← h2, List.cons_append, he]
        · intro u hu
          rw [← h1] at hu
          rcases List.mem_cons.mp hu with hu | hu
          · subst hu
            simp [hc]
          · exact hcs u hu

theorem keyShape_decomp (k : String) (h : keyShape k = true) :
    ∃ tid ts, k = mkKey tid ts ∧ plainStr tid = true ∧ plainStr ts = true := by
  cases hd : dropLit ("checkpoint:").data k.data with
  | none =>
    rw [keyShape] at h
    simp only [hd] at h
    exact Bool.noConfusion h
  | some rest =>
    cases hs : splitFirstColon rest with
    | none =>
      rw [keyShape] at h
      simp only [hd, hs] at h
      exact Bool.noConfusion h
    | some p =>
      obtain ⟨a, b⟩ := p
      rw [keyShape] at h
      simp only [hd, hs, Bool.and_eq_true] at h
      have hk : k.data = ("checkpoint:").data ++ (a ++ ':' :: b) := by
        rw [dropLit_eq _ _ _ hd, (splitFirstColon_eq _ _ _ hs).1]
      refine ⟨String.mk a, String.mk b, ?_, h.1, h.2⟩
      apply string_data_eq
      rw [hk, mkKey_data]
      show ("checkpoint:").data ++ (a ++ ':' :: b)
        = ("checkpoint:" ++ String.mk a).data ++ ':' :: b
      rw [String.data_append]
      exact (List.append_assoc _ _ _).symm

theorem mkKey_inj (tid tid2 ts ts2 : String)
    (h1 : plainStr tid = true) (h2 : plainStr tid2 = true)
    (h : mkKey tid ts = mkKey tid2 ts2) : tid = tid2 ∧ ts = ts2 := by
  have hdata := congrArg String.data h
  rw [mkKey_data, mkKey_data, String.data_append, String.data_append,
    List.append_assoc, List.append_assoc] at hdata
  have hcancel := List.append_cancel_left hdata
  obtain ⟨ha, hb⟩ := colon_split tid.data tid2.data ts.data ts2.data
    (plainStr_no_colon tid h1) (plainStr_no_colon tid2 h2) hcancel
  exact ⟨string_data_eq _ _ ha, string_data_eq _ _ hb⟩

theorem key_matches_iff (tid tid2 ts2 : String)
    (htid : plainStr tid = true) (h2 : plainStr tid2 = true)
    (_hts2 : plainStr ts2 = true) :
    (globMatch (sessPattern tid).data (mkKey tid2 ts2).data = true) ↔ tid2 = tid := by
  have hpat : (sessPattern tid).data
      = (("checkpoint:" ++ tid).data ++ [':']) ++ ['*'] := by
    have hcs : (":*" : String).data = [':', '*'] := rfl
    simp [sessPattern, String.data_append, hcs]
  have hstar : ∀ c ∈ ("checkpoint:" ++ tid).data ++ [':'], c ≠ '*' := by
    intro c hc
    rcases List.mem_append.mp hc with hc | hc
    · rw [String.data_append] at hc
      rcases List.mem_append.mp hc with hc | hc
      · exact (by decide : ∀ x ∈ ("checkpoint:" : String).data, x ≠ '*') c hc
      · exact plainStr_no_star tid htid c hc
    · simp only [List.mem_singleton] at hc
      subst hc
      decide
  rw [hpat, globMatch_lit_star _ _ hstar]
  constructor
  · rintro ⟨t, ht⟩
    rw [mkKey_data, List.append_assoc, List.singleton_append,
      String.data_append, String.data_append, List.append_assoc,
      List.append_assoc] at ht
    have hcancel := List.append_cancel_left ht
    obtain ⟨hab, _⟩ := colon_split tid2.data tid.data ts2.data t
      (plainStr_no_colon tid2 h2) (plainStr_no_colon tid htid) hcancel
    exact string_data_eq _ _ hab
  · intro he
    subst he
    refine ⟨ts2.data, ?_⟩
    rw [mkKey_data, List.append_assoc, List.singleton_append]

/-! ## Latest-version resolution -/

theorem keysMatching_mem_iff (st : Store) (tid : String)
    (hshape : (st.map Prod.fst).all keyShape = true)
    (htid : plainStr tid = true) (key : String) :
    key ∈ keysMatching st (sessPattern tid)
      ↔ key ∈ st.map Prod.fst ∧ ∃ ts, plainStr ts = true ∧ key = mkKey tid ts := by
  rw [keysMatching, List.mem_filter]
  constructor
  · rintro ⟨hmem, hglob⟩
    refine ⟨hmem, ?_⟩
    obtain ⟨tid2, ts2, hdec, hp2, hpts2⟩ :=
      keyShape_decomp key (List.all_eq_true.mp hshape key hmem)
    subst hdec
    have := (key_matches_iff tid tid2 ts2 htid hp2 hpts2).mp hglob
    subst this
    exact ⟨ts2, hpts2, rfl⟩
  · rintro ⟨hmem, ts, hts, hkey⟩
    refine ⟨hmem, ?_⟩
    obtain ⟨tid2, ts2, hdec, hp2, hpts2⟩ :=
      keyShape_decomp key (List.all_eq_true.mp hshape key hmem)
    rw [hdec]
    rw [hdec] at hkey
    obtain ⟨htid2, _⟩ := mkKey_inj tid2 tid ts2 ts hp2 htid hkey
    exact (key_matches_iff tid tid2 ts2 htid hp2 hpts2).mpr htid2

theorem session_ts_plain (st : Store) (tid : String)
    (hshape : (st.map Prod.fst).all keyShape = true)
    (htid : plainStr tid = true) (ts : String)
    (hts : mkKey tid ts ∈ st.map Prod.fst) : plainStr ts = true := by
  obtain ⟨tid2, ts2, hdec, hp2, hpts2⟩ :=
    keyShape_decomp _ (List.all_eq_true.mp hshape _ hts)
  obtain ⟨_, hts2⟩ := mkKey_inj tid tid2 ts ts2 htid hp2 hdec
  rw [hts2]
  exact hpts2

/-- C3: with no version in the config, `load` resolves to the stored key
whose version suffix is the lexically greatest among the session's keys, and
returns absent when the session has no keys.  Stated for stores whose keys
all follow the `checkpoint:{tid}:{ts}` scheme with plain (colon- and
glob-free) components. -/
theorem c3_latest_resolution (st : Store) (tid : String)
    (hshape : (st.map Prod.fst).all keyShape = true)
    (htid : plainStr tid = true) :
    ((¬ ∃ ts, mkKey tid ts ∈ st.map Prod.fst) →
        RedisSaver.get_tuple st ⟨tid, none⟩ = .ok none)
    ∧ (∀ ts0, mkKey tid ts0 ∈ st.map Prod.fst →
        ∃ tsM, mkKey tid tsM ∈ st.map Prod.fst
          ∧ (∀ ts, mkKey tid ts ∈ st.map Prod.fst → strLt tsM ts = false)
          ∧ RedisSaver.get_tuple st ⟨tid, none⟩
              = RedisSaver.fetchKey st ⟨tid, none⟩ (mkKey tid tsM)) := by
  have hfalsy : ¬ (truthyOpt (Config.mk tid none).thread_ts = true) := by
    simp [truthyOpt]
  constructor
  · intro hnone
    rw [RedisSaver.get_tuple, if_neg hfalsy]
    cases hKM : keysMatching st (sessPattern (Config.mk tid none).thread_id) with
    | nil => rfl
    | cons k ks =>
      exfalso
      have hk : k ∈ keysMatching st (sessPattern tid) := by
        show k ∈ keysMatching st (sessPattern (Config.mk tid none).thread_id)
        rw [hKM]
        simp
      obtain ⟨hmem, ts, _, hkey⟩ := (keysMatching_mem_iff st tid hshape htid k).mp hk
      exact hnone ⟨ts, hkey ▸ hmem⟩
  · intro ts0 hts0
    cases hKM : keysMatching st (sessPattern tid) with
    | nil =>
      exfalso
      have hk : mkKey tid ts0 ∈ keysMatching st (sessPattern tid) :=
        (keysMatching_mem_iff st tid hshape htid _).mpr
          ⟨hts0, ts0, session_ts_plain st tid hshape htid ts0 hts0, rfl⟩
      rw [hKM] at hk
      exact List.not_mem_nil _ hk
    | cons k ks =>
      have hM_mem : maxBySuffix k ks ∈ keysMatching st (sessPattern tid) := by
        rw [hKM]
        exact maxBySuffix_mem k ks
      obtain ⟨hM_store, tsM, hplainM, hMeq⟩ :=
        (keysMatching_mem_iff st tid hshape htid _).mp hM_mem
      refine ⟨tsM, by rw [← hMeq]; exact hM_store, ?_, ?_⟩
      · intro ts hts
        have hm : mkKey tid ts ∈ keysMatching st (sessPattern tid) :=
          (keysMatching_mem_iff st tid hshape htid _).mpr
            ⟨hts, ts, session_ts_plain st tid hshape htid ts hts, rfl⟩
        rw [hKM] at hm
        have hge := maxBySuffix_ge k ks _ hm
        rw [hMeq, lastSeg_mkKey tid tsM hplainM,
          lastSeg_mkKey tid ts (session_ts_plain st tid hshape htid ts hts)] at hge
        exact hge
      · rw [RedisSaver.get_tuple, if_neg hfalsy]
        have hKM2 : keysMatching st (sessPattern (Config.mk tid none).thread_id)
            = k :: ks := hKM
        simp only [hKM2]
        rw [hMeq]

/-! ## Structure of the tuples yielded by the history listing -/

theorem listLoop_mem (st : Store) (tid : String) (keys : List String) :
    ∀ t ∈ (RedisSaver.listLoop st tid keys).1,
      t.config.thread_id = tid
      ∧ (∃ k ∈ keys, t.config.thread_ts = some (lastSeg k))
      ∧ (∀ pc, t.parent_config = some pc → pc.thread_id = tid) := by
  induction keys with
  | nil =>
    intro t ht
    simp [RedisSaver.listLoop] at ht
  | cons key rest ih =>
    intro t ht
    simp only [RedisSaver.listLoop] at ht
    split at ht
    · split at ht
      · simp at ht
      · split at ht
        · simp at ht
        · split at ht
          · simp at ht
          · split at ht
            · simp at ht
            · rcases List.mem_cons.mp ht with ht | ht
              · subst ht
                refine ⟨rfl, ⟨key, by simp, rfl⟩, ?_⟩
                intro pc hpc
                split at hpc
                · split at hpc
                  · exact Option.noConfusion hpc
                  · injection hpc with hpc
                    rw [← hpc]
                · exact Option.noConfusion hpc
              · obtain ⟨h1, ⟨k, hk, h2⟩, h3⟩ := ih t ht
                exact ⟨h1, ⟨k, by simp [hk], h2⟩, h3⟩
    · obtain ⟨h1, ⟨k, hk, h2⟩, h3⟩ := ih t ht
      exact ⟨h1, ⟨k, by simp [hk], h2⟩, h3⟩

theorem listLoop_all_wildcard (st : Store) (keys : List String) :
    ((RedisSaver.listLoop st "*" keys).1.all
      (fun t => (t.config.thread_id == "*")
        && t.parent_config.all (fun pc => pc.thread_id == "*"))) = true := by
  apply List.all_eq_true.mpr
  intro t ht
  obtain ⟨h1, _, h3⟩ := listLoop_mem st "*" keys t ht
  rw [Bool.and_eq_true]
  refine ⟨beq_iff_eq.mpr h1, ?_⟩
  cases hp : t.parent_config with
  | none => rfl
  | some pc =>
    have hpc := h3 pc hp
    simp [Option.all, hpc]

theorem listLoop_filter_lt (st : Store) (tid : String) (v2 : String)
    (keys : List String) (limit : Option Nat) :
    ((RedisSaver.listLoop st tid
        (applyLimit (sortDesc (keys.filter (fun k => strLt (lastSeg k) v2)))
          limit)).1.all
      (fun t => strLt (t.config.thread_ts.getD "") v2
        && !(strLe v2 (t.config.thread_ts.getD "")))) = true := by
  apply List.all_eq_true.mpr
  intro t ht
  obtain ⟨_, ⟨k, hk, h2⟩, _⟩ := listLoop_mem st tid _ t ht
  have hk2 : k ∈ keys.filter (fun k => strLt (lastSeg k) v2) :=
    (mem_sortDesc _ _).mp (mem_applyLimit _ _ _ hk)
  have hlt : strLt (lastSeg k) v2 = true := (List.mem_filter.mp hk2).2
  simp [h2, strLe, hlt]

/-- C5: listing with a `before` config whose version is `v2` yields no tuple
whose version is equal to or lexically greater than `v2`: every yielded
tuple's version is strictly below `v2`. -/
theorem c5_before_filter (st : Store) (config : Option Config) (btid v2 : String)
    (limit : Option Nat) :
    ((RedisSaver.list st config (some ⟨btid, some v2⟩) limit).1.all
      (fun t => strLt (t.config.thread_ts.getD "") v2
        && !(strLe v2 (t.config.thread_ts.getD "")))) = true := by
  cases config with
  | none => exact listLoop_filter_lt st "*" v2 (keysMatching st (sessPattern "*")) limit
  | some c =>
    exact listLoop_filter_lt st c.thread_id v2
      (keysMatching st (sessPattern c.thread_id)) limit

/-- C9: when `list` is called with no config, every yielded tuple carries the
literal wildcard `*` as the session id in its config, and in its
`parent_config` when that is present. -/
theorem c9_wildcard_listing (st : Store) (before : Option Config) (limit : Option Nat) :
    ((RedisSaver.list st none before limit).1.all
      (fun t => (t.config.thread_id == "*")
        && t.parent_config.all (fun pc => pc.thread_id == "*"))) = true := by
  cases before with
  | none => exact listLoop_all_wildcard st _
  | some b =>
    cases hb : b.thread_ts with
    | none => simp [RedisSaver.list, hb]
    | some v2 =>
      simp only [RedisSaver.list, hb]
      exact listLoop_all_wildcard st _

/-! ## Round-trip claims -/

/-- C1 (amended): for every config with a session id, every checkpoint whose
version marker `ts` is non-empty (including checkpoints with embedded binary
byte-sequence fields) and every metadata dict, loading with the config
returned by a successful save yields a tuple whose checkpoint and metadata
equal the saved values exactly, embedded binary payloads byte-for-byte. -/
theorem c1_roundtrip (st : Store) (cfg : Config) (cp : Checkpoint) (md : Metadata)
    (cfg2 : Config) (st2 : Store)
    (hts : cp.ts ≠ "")
    (h : RedisSaver.put st cfg cp md = (.ok cfg2, st2)) :
    ∃ t : CheckpointTuple,
      RedisSaver.get_tuple st2 cfg2 = .ok (some t)
      ∧ t.checkpoint = Checkpoint.toValue cp
      ∧ t.metadata = fieldsToValue md :=
  ⟨_, put_then_get st cfg cp md cfg2 st2 hts h, rfl, rfl⟩

/-- C1 counterexample: with an empty version marker the returned config's
`thread_ts` is falsy, so the subsequent load takes the resolve-latest path
and can return a different checkpoint of the same session: here the
checkpoint saved earlier under version `z` instead of the just-saved one. -/
theorem c1_counterexample :
    (RedisSaver.put ((RedisSaver.put [] ⟨"s", none⟩ ⟨"z", []⟩ []).2)
        ⟨"s", none⟩ ⟨"", []⟩ []).1 = .ok ⟨"s", some ""⟩
    ∧ RedisSaver.get_tuple
        ((RedisSaver.put ((RedisSaver.put [] ⟨"s", none⟩ ⟨"z", []⟩ []).2)
          ⟨"s", none⟩ ⟨"", []⟩ []).2) ⟨"s", some ""⟩
        = .ok (some ⟨⟨"s", some ""⟩, .vobjCons "ts" (.vstr "z") .vobjNil,
            .vobjNil, none⟩)
    ∧ Value.vobjCons "ts" (.vstr "z") .vobjNil
        ≠ Checkpoint.toValue ⟨"", []⟩ := by
  refine ⟨by decide, by decide, by decide⟩

theorem c1_roundtrip_witness :
    ((⟨"t1", [("blob", .vbytes [171, 205])]⟩ : Checkpoint).ts ≠ "")
    ∧ (RedisSaver.put [] ⟨"s", none⟩ ⟨"t1", [("blob", .vbytes [171, 205])]⟩
        [("source", .vstr "input")]
        = (.ok ⟨"s", some "t1"⟩,
          (RedisSaver.put [] ⟨"s", none⟩ ⟨"t1", [("blob", .vbytes [171, 205])]⟩
            [("source", .vstr "input")]).2))
    ∧ (∃ t : CheckpointTuple,
        RedisSaver.get_tuple
          ((RedisSaver.put [] ⟨"s", none⟩ ⟨"t1", [("blob", .vbytes [171, 205])]⟩
            [("source", .vstr "input")]).2) ⟨"s", some "t1"⟩ = .ok (some t)
        ∧ t.checkpoint = Checkpoint.toValue ⟨"t1", [("blob", .vbytes [171, 205])]⟩
        ∧ t.metadata = fieldsToValue [("source", .vstr "input")]) :=
  ⟨by decide, by decide,
    c1_roundtrip [] ⟨"s", none⟩ ⟨"t1", [("blob", .vbytes [171, 205])]⟩
      [("source", .vstr "input")] ⟨"s", some "t1"⟩
      ((RedisSaver.put [] ⟨"s", none⟩ ⟨"t1", [("blob", .vbytes [171, 205])]⟩
        [("source", .vstr "input")]).2) (by decide) (by decide)⟩

/-! ## The history listing drops every record -/

/-- C2: after saving a checkpoint for session `s` (the stored record holds
both the `checkpoint` and `metadata` fields, as the `bytes`-keyed lookups
show), listing that session's history yields no tuples at all: the guard
`"checkpoint" in data` tests `str` keys against the `bytes`-keyed `hgetall`
dict, so every stored record is skipped instead of one tuple per stored
checkpoint being produced. -/
theorem c2_list_skips_all_records :
    pyContains
        (hgetallPy ((RedisSaver.put [] ⟨"s", none⟩ ⟨"t1", []⟩ []).2)
          "checkpoint:s:t1") (PyStr.bin "checkpoint") = true
    ∧ pyContains
        (hgetallPy ((RedisSaver.put [] ⟨"s", none⟩ ⟨"t1", []⟩ []).2)
          "checkpoint:s:t1") (PyStr.bin "metadata") = true
    ∧ pyContains
        (hgetallPy ((RedisSaver.put [] ⟨"s", none⟩ ⟨"t1", []⟩ []).2)
          "checkpoint:s:t1") (PyStr.text "checkpoint") = false
    ∧ RedisSaver.list ((RedisSaver.put [] ⟨"s", none⟩ ⟨"t1", []⟩ []).2)
        (some ⟨"s", none⟩) none none = ([], none) := by
  refine ⟨by decide, by decide, by decide, by decide⟩

/-! ## Parent-chain claims -/

/-- C4 (amended): when a save with input config version `v1` succeeds and
the saved checkpoint's version marker is non-empty, loading the resulting
checkpoint yields a `parent_config` equal to `parentOf` of the input config:
present iff a non-empty predecessor version was recorded at save time, and
carrying exactly the version `v1` when `v1` is non-empty. -/
theorem c4_parent_chain (st : Store) (cfg : Config) (cp : Checkpoint) (md : Metadata)
    (cfg2 : Config) (st2 : Store)
    (hts : cp.ts ≠ "")
    (h : RedisSaver.put st cfg cp md = (.ok cfg2, st2)) :
    ∃ t : CheckpointTuple,
      RedisSaver.get_tuple st2 cfg2 = .ok (some t)
      ∧ t.parent_config = parentOf cfg
      ∧ (∀ v1, cfg.thread_ts = some v1 → v1 ≠ "" →
          t.parent_config = some ⟨cfg.thread_id, some v1⟩) := by
  refine ⟨_, put_then_get st cfg cp md cfg2 st2 hts h, rfl, ?_⟩
  intro v1 hv1 hne
  simp [parentOf, parentTs, hv1, hne]

/-- C4 counterexample: save under session `s` with input config version
`"v1"` but checkpoint version marker `""`; the returned config's version is
falsy, the load resolves to the latest key (the previously saved `"z"`), and
the tuple it returns has no `parent_config` at all — not one whose version
equals `"v1"`. -/
theorem c4_counterexample :
    (RedisSaver.put ((RedisSaver.put [] ⟨"s", none⟩ ⟨"z", []⟩ []).2)
        ⟨"s", some "v1"⟩ ⟨"", []⟩ []).1 = .ok ⟨"s", some ""⟩
    ∧ RedisSaver.get_tuple
        ((RedisSaver.put ((RedisSaver.put [] ⟨"s", none⟩ ⟨"z", []⟩ []).2)
          ⟨"s", some "v1"⟩ ⟨"", []⟩ []).2) ⟨"s", some ""⟩
        = .ok (some ⟨⟨"s", some ""⟩, .vobjCons "ts" (.vstr "z") .vobjNil,
            .vobjNil, none⟩)
    ∧ (⟨⟨"s", some ""⟩, .vobjCons "ts" (.vstr "z") .vobjNil, .vobjNil,
          none⟩ : CheckpointTuple).parent_config
        ≠ some ⟨"s", some "v1"⟩ := by
  refine ⟨by decide, by decide, by decide⟩

theorem c4_parent_chain_witness :
    ((⟨"t2", []⟩ : Checkpoint).ts ≠ "")
    ∧ (RedisSaver.put [] ⟨"s", some "v1"⟩ ⟨"t2", []⟩ []
        = (.ok ⟨"s", some "t2"⟩,
          (RedisSaver.put [] ⟨"s", some "v1"⟩ ⟨"t2", []⟩ []).2))
    ∧ (∃ t : CheckpointTuple,
        RedisSaver.get_tuple ((RedisSaver.put [] ⟨"s", some "v1"⟩ ⟨"t2", []⟩ []).2)
          ⟨"s", some "t2"⟩ = .ok (some t)
        ∧ t.parent_config = parentOf ⟨"s", some "v1"⟩
        ∧ (∀ v1, (⟨"s", some "v1"⟩ : Config).thread_ts = some v1 → v1 ≠ "" →
            t.parent_config
              = some ⟨(⟨"s", some "v1"⟩ : Config).thread_id, some v1⟩)) :=
  ⟨by decide, by decide,
    c4_parent_chain [] ⟨"s", some "v1"⟩ ⟨"t2", []⟩ [] ⟨"s", some "t2"⟩
      ((RedisSaver.put [] ⟨"s", some "v1"⟩ ⟨"t2", []⟩ []).2)
      (by decide) (by decide)⟩

/-! ## Connection scoping -/

/-- C6: a connection leased from a pool is closed by the `finally` block on
every exit path of the scoped acquisition — for every body, including ones
that raise — while a caller-supplied already-open connection is never
closed; identically for the sync and async variants. -/
theorem c6_connection_scope {α : Type} (p c : Nat) (body : Nat → Except String α) :
    ((_get_sync_connection (SyncConn.pool p) body).2 = [leasedConn p])
    ∧ ((_get_sync_connection (SyncConn.client c) body).2 = [])
    ∧ ((_get_sync_connection (SyncConn.client c) body).1 = body c)
    ∧ ((_get_async_connection (AsyncConn.pool p) body).2 = [leasedConn p])
    ∧ ((_get_async_connection (AsyncConn.client c) body).2 = [])
    ∧ ((_get_async_connection (AsyncConn.client c) body).1 = body c) :=
  ⟨rfl, rfl, rfl, rfl, rfl, rfl⟩

/-! ## No partial write on serialization failure -/

/-- C7: if encoding the checkpoint or the metadata fails during save, `put`
raises the error to the caller and performs no write: the store it returns
is exactly the store it was given. -/
theorem c7_no_partial_write (st : Store) (cfg : Config) (cp : Checkpoint)
    (md : Metadata)
    (h : exceptFailed (JsonAndBinarySerializer.dumps cp.toValue) = true
        ∨ exceptFailed (JsonAndBinarySerializer.dumps (fieldsToValue md)) = true) :
    ∃ e, RedisSaver.put st cfg cp md = (.error e, st) := by
  cases hc : JsonAndBinarySerializer.dumps cp.toValue with
  | error e => exact ⟨e, by simp only [RedisSaver.put, hc]⟩
  | ok cpS =>
    cases hm : JsonAndBinarySerializer.dumps (fieldsToValue md) with
    | error e => exact ⟨e, by simp only [RedisSaver.put, hc, hm]⟩
    | ok mdS =>
      exfalso
      rcases h with h | h
      · rw [hc] at h
        simp [exceptFailed] at h
      · rw [hm] at h
        simp [exceptFailed] at h

theorem c7_no_partial_write_witness :
    (exceptFailed (JsonAndBinarySerializer.dumps
          (Checkpoint.toValue ⟨"t1", [("handle", .vpyobj 0)]⟩)) = true
      ∨ exceptFailed (JsonAndBinarySerializer.dumps
          (fieldsToValue ([] : Metadata))) = true)
    ∧ (∃ e, RedisSaver.put [] ⟨"s", none⟩ ⟨"t1", [("handle", .vpyobj 0)]⟩ []
        = (.error e, [])) :=
  ⟨by decide,
    c7_no_partial_write [] ⟨"s", none⟩ ⟨"t1", [("handle", .vpyobj 0)]⟩ []
      (by decide)⟩

/-! ## Sync / async equivalence -/

/-- C8: for every store state and arguments, the suspending save `aput`
produces the same stored record and returns the same config as the blocking
save `put`, and the suspending load `aget_tuple` returns the same result as
the blocking load `get_tuple`. -/
theorem c8_sync_async_equivalence :
    (∀ (st : Store) (cfg : Config) (cp : Checkpoint) (md : Metadata),
        RedisSaver.aput st cfg cp md = RedisSaver.put st cfg cp md)
    ∧ (∀ (st : Store) (cfg : Config),
        RedisSaver.aget_tuple st cfg = RedisSaver.get_tuple st cfg) :=
  ⟨fun _ _ _ _ => rfl, fun _ _ => rfl⟩

/-! ## The input config is returned unchanged -/

theorem fetchKey_config (st : Store) (cfg : Config) (key : String)
    (t : CheckpointTuple)
    (h : RedisSaver.fetchKey st cfg key = .ok (some t)) : t.config = cfg := by
  rw [RedisSaver.fetchKey] at h
  split at h
  · injection h with h
    exact Option.noConfusion h
  · split at h
    · exact Except.noConfusion h
    · split at h
      · exact Except.noConfusion h
      · split at h
        · exact Except.noConfusion h
        · split at h
          · exact Except.noConfusion h
          · injection h with h
            injection h with h
            rw [← h]

/-- C10: a successful load returns the input config object itself as the
tuple's config; in particular, when the version was unset and the latest
checkpoint was resolved, the returned tuple's config still has no version
marker. -/
theorem c10_config_passthrough (st : Store) (cfg : Config) (t : CheckpointTuple)
    (h : RedisSaver.get_tuple st cfg = .ok (some t)) :
    t.config = cfg ∧ (cfg.thread_ts = none → t.config.thread_ts = none) := by
  have hconf : t.config = cfg := by
    rw [RedisSaver.get_tuple] at h
    split at h
    · exact fetchKey_config _ _ _ _ h
    · split at h
      · injection h with h
        exact Option.noConfusion h
      · exact fetchKey_config _ _ _ _ h
  exact ⟨hconf, fun hnone => by rw [hconf, hnone]⟩

theorem c10_config_passthrough_witness :
    (RedisSaver.get_tuple ((RedisSaver.put [] ⟨"s", none⟩ ⟨"t1", []⟩ []).2)
        ⟨"s", none⟩
      = .ok (some ⟨⟨"s", none⟩, .vobjCons "ts" (.vstr "t1") .vobjNil,
          .vobjNil, none⟩))
    ∧ ((⟨⟨"s", none⟩, .vobjCons "ts" (.vstr "t1") .vobjNil, .vobjNil,
          none⟩ : CheckpointTuple).config = ⟨"s", none⟩
      ∧ ((⟨"s", none⟩ : Config).thread_ts = none →
          (⟨⟨"s", none⟩, .vobjCons "ts" (.vstr "t1") .vobjNil, .vobjNil,
            none⟩ : CheckpointTuple).config.thread_ts = none)) :=
  ⟨by decide,
    c10_config_passthrough ((RedisSaver.put [] ⟨"s", none⟩ ⟨"t1", []⟩ []).2)
      ⟨"s", none⟩
      ⟨⟨"s", none⟩, .vobjCons "ts" (.vstr "t1") .vobjNil, .vobjNil, none⟩
      (by decide)⟩

theorem c3_latest_resolution_witness :
    (((RedisSaver.put ((RedisSaver.put ((RedisSaver.put [] ⟨"s", none⟩
            ⟨"v1", []⟩ []).2) ⟨"s", some "v1"⟩ ⟨"v2", []⟩ []).2)
          ⟨"s", some "v2"⟩ ⟨"v3", []⟩ []).2).map Prod.fst).all keyShape = true
    ∧ plainStr "s" = true
    ∧ (((¬ ∃ ts, mkKey "s" ts ∈
            ((RedisSaver.put ((RedisSaver.put ((RedisSaver.put [] ⟨"s", none⟩
                ⟨"v1", []⟩ []).2) ⟨"s", some "v1"⟩ ⟨"v2", []⟩ []).2)
              ⟨"s", some "v2"⟩ ⟨"v3", []⟩ []).2).map Prod.fst) →
          RedisSaver.get_tuple
            ((RedisSaver.put ((RedisSaver.put ((RedisSaver.put [] ⟨"s", none⟩
                ⟨"v1", []⟩ []).2) ⟨"s", some "v1"⟩ ⟨"v2", []⟩ []).2)
              ⟨"s", some "v2"⟩ ⟨"v3", []⟩ []).2) ⟨"s", none⟩ = .ok none)
      ∧ (∀ ts0, mkKey "s" ts0 ∈
            ((RedisSaver.put ((RedisSaver.put ((RedisSaver.put [] ⟨"s", none⟩
                ⟨"v1", []⟩ []).2) ⟨"s", some "v1"⟩ ⟨"v2", []⟩ []).2)
              ⟨"s", some "v2"⟩ ⟨"v3", []⟩ []).2).map Prod.fst →
          ∃ tsM, mkKey "s" tsM ∈
              ((RedisSaver.put ((RedisSaver.put ((RedisSaver.put [] ⟨"s", none⟩
                  ⟨"v1", []⟩ []).2) ⟨"s", some "v1"⟩ ⟨"v2", []⟩ []).2)
                ⟨"s", some "v2"⟩ ⟨"v3", []⟩ []).2).map Prod.fst
            ∧ (∀ ts, mkKey "s" ts ∈
                  ((RedisSaver.put ((RedisSaver.put ((RedisSaver.put []
                      ⟨"s", none⟩ ⟨"v1", []⟩ []).2) ⟨"s", some "v1"⟩
                      ⟨"v2", []⟩ []).2) ⟨"s", some "v2"⟩ ⟨"v3", []⟩ []).2).map
                    Prod.fst → strLt tsM ts = false)
            ∧ RedisSaver.get_tuple
                ((RedisSaver.put ((RedisSaver.put ((RedisSaver.put []
                    ⟨"s", none⟩ ⟨"v1", []⟩ []).2) ⟨"s", some "v1"⟩
                    ⟨"v2", []⟩ []).2) ⟨"s", some "v2"⟩ ⟨"v3", []⟩ []).2)
                ⟨"s", none⟩
              = RedisSaver.fetchKey
                  ((RedisSaver.put ((RedisSaver.put ((RedisSaver.put []
                      ⟨"s", none⟩ ⟨"v1", []⟩ []).2) ⟨"s", some "v1"⟩
                      ⟨"v2", []⟩ []).2) ⟨"s", some "v2"⟩ ⟨"v3", []⟩ []).2)
                  ⟨"s", none⟩ (mkKey "s" tsM))) :=
  ⟨by decide, by decide,
    c3_latest_resolution
      ((RedisSaver.put ((RedisSaver.put ((RedisSaver.put [] ⟨"s", none⟩
          ⟨"v1", []⟩ []).2) ⟨"s", some "v1"⟩ ⟨"v2", []⟩ []).2)
        ⟨"s", some "v2"⟩ ⟨"v3", []⟩ []).2) "s" (by decide) (by decide)⟩
